import Mathlib

/-!
Verification of the playlist-updater core: a shallow embedding of the
track-collection, deduplication and playlist-synchronization logic of
`spotipy_utils.py` and `update_spotify_playlists.py`, together with proofs
about the embedded definitions.

Conventions of the embedding:
* Calendar dates are triples (year, month, day); comparisons and day
  subtraction go through `days_from_civil`, the standard proleptic-Gregorian
  day count, which is order-isomorphic to Python `datetime.date` comparison.
* Fallible Python code is modelled with `Except`/`Option`; an uncaught Python
  exception is an `.error` result.
* Provider (Spotify API) responses are inputs to the embedded functions;
  mutating provider calls are recorded in an explicit trace.
-/

deriving instance DecidableEq for Except

/-- A calendar date, as Python's `datetime.date` (proleptic Gregorian). -/
structure PDate where
  year : Nat
  month : Nat
  day : Nat
  deriving DecidableEq, Repr

/-- Gregorian leap-year test. -/
def is_leap (y : Nat) : Bool :=
  y % 4 == 0 && (y % 100 != 0 || y % 400 == 0)

/-- Number of days in a month of a given year. -/
def days_in_month (y m : Nat) : Nat :=
  if m = 2 then (if is_leap y then 29 else 28)
  else if m = 4 ∨ m = 6 ∨ m = 9 ∨ m = 11 then 30
  else 31

/-- Day number of a civil date (standard civil-from-days inverse count,
zero at 0000-03-01). Python `datetime.date` ordering and day arithmetic
coincide with ordering and arithmetic on this day number, which is how the
embedding realises `date` comparison and `timedelta` subtraction. -/
def days_from_civil (dt : PDate) : Nat :=
  let y := if dt.month ≤ 2 then dt.year - 1 else dt.year
  let era := y / 400
  let yoe := y - era * 400
  let mp := (dt.month + 9) % 12
  let doy := (153 * mp + 2) / 5 + dt.day - 1
  let doe := yoe * 365 + yoe / 4 - yoe / 100 + doy
  era * 146097 + doe

/-- Python exception classes that matter around date parsing:
`dateutil` raises `TypeError` for a non-string input (e.g. `None`) and a
`ValueError` subclass (`ParserError`) for an unparseable string. -/
inductive ParseExc where
  | typeError
  | valueError
  deriving DecidableEq, Repr

/-- Number parsing on a character run: all-digit, non-empty. -/
def chars_to_nat (l : List Char) : Option Nat :=
  if l ≠ [] ∧ l.all Char.isDigit then
    some (l.foldl (fun n c => n * 10 + (c.toNat - 48)) 0)
  else none

/-- Split a character list at dashes; mirrors `String.splitOn "-"`. -/
def split_dashes : List Char → List (List Char)
  | [] => [[]]
  | c :: cs =>
    if c = '-' then [] :: split_dashes cs
    else
      match split_dashes cs with
      | [] => [[c]]
      | g :: gs => (c :: g) :: gs

/-- Model of the external date parser used at `spotipy_utils.py:57`
(`dateutil.parser.parse(album['release_date']).date()`), restricted to the
provider's date-string shapes `YYYY`, `YYYY-MM`, `YYYY-MM-DD`. Documented
library behavior: parsed fields replace the fields of the *default* datetime,
which defaults to the current date (so a missing month or day comes from
`today`, with a defaulted day clamped to the target month's length); `None`
input raises `TypeError`; an unparseable or out-of-range string raises a
`ValueError` subclass. Years outside Python's `datetime` range (1..9999)
are rejected. -/
def parse_date (today : PDate) : Option String → Except ParseExc PDate
  | none => .error .typeError
  | some s =>
    match (split_dashes s.data).map chars_to_nat with
    | [some y] =>
      if 1 ≤ y ∧ y ≤ 9999 then
        .ok ⟨y, today.month, min today.day (days_in_month y today.month)⟩
      else .error .valueError
    | [some y, some m] =>
      if (1 ≤ y ∧ y ≤ 9999) ∧ (1 ≤ m ∧ m ≤ 12) then
        .ok ⟨y, m, min today.day (days_in_month y m)⟩
      else .error .valueError
    | [some y, some m, some d] =>
      if (1 ≤ y ∧ y ≤ 9999) ∧ (1 ≤ m ∧ m ≤ 12) ∧ (1 ≤ d ∧ d ≤ days_in_month y m) then
        .ok ⟨y, m, d⟩
      else .error .valueError
    | _ => .error .valueError

/-- The three-way classification a release date falls into at
`spotipy_utils.py:63` / `spotipy_utils.py:88`. -/
inductive WindowClass where
  | recent
  | ytd
  | ignored
  deriving DecidableEq, Repr

/-- Release-window classification, on day numbers: the `if`/`elif` chain of
`get_recent_track` (`day_n_days_ago <= release_date <= today`, else
`beginning_of_year <= release_date <= day_n_days_ago`, else nothing). -/
def classify_release (todayN yearStartN : Int) (n_days_ago : Nat) (rdN : Int) : WindowClass :=
  let day_n_days_ago : Int := todayN - n_days_ago
  if day_n_days_ago ≤ rdN ∧ rdN ≤ todayN then .recent
  else if yearStartN ≤ rdN ∧ rdN ≤ day_n_days_ago then .ytd
  else .ignored

/-- Code-point lexicographic comparison of character lists: Python's `<` on
strings. -/
def chars_lt : List Char → List Char → Bool
  | [], [] => false
  | [], _ :: _ => true
  | _ :: _, [] => false
  | a :: as, b :: bs =>
    if a.toNat < b.toNat then true
    else if b.toNat < a.toNat then false
    else chars_lt as bs

/-- Python string `<` (code-point lexicographic). -/
def pystr_lt (a b : String) : Bool := chars_lt a.data b.data

/-- Python string `<=`: the negation of the reverse strict comparison. -/
def pystr_le (a b : String) : Bool := !(pystr_lt b a)

/-- The canonical 5-tuple `(track_id, name, release_date, artist_threads,
artist_name)` built at `spotipy_utils.py:71`; the release date is carried as
the raw provider string (Python compares these strings lexicographically). -/
structure TrackRecord where
  track_id : String
  name : String
  release_date : String
  threads : Option String
  artist_name : Option String
  deriving DecidableEq, Repr

/-- One item of an `album_tracks` provider response. -/
structure STrack where
  id : String
  name : String
  deriving DecidableEq, Repr

/-- One item of an `artist_albums` provider response. `release_date = none`
models a missing/null date (Python `None`); `track_items = none` models the
`album_tracks` call for this album raising an exception. -/
structure Album where
  id : String
  name : String
  release_date : Option String
  track_items : Option (List STrack)
  deriving DecidableEq, Repr

/-- An artist record from the roster; `spotify_id = none` models a dictionary
missing the key. -/
structure Artist where
  spotify_id : Option String
  name : Option String
  threads : Option String
  deriving DecidableEq, Repr

/-- Exceptions `get_recent_track` can let escape: `KeyError` for a missing
`spotify_id` key, and the `ValueError` a parseable-looking-but-invalid date
string raises (only `TypeError` is caught at `spotipy_utils.py:58`). -/
inductive FetchExc where
  | keyError
  | valueError
  deriving DecidableEq, Repr

/-- Construction of the track tuple at `spotipy_utils.py:71`. -/
def mk_track_info (artist : Artist) (raw_release_date : String) (t : STrack) : TrackRecord :=
  ⟨t.id, t.name, raw_release_date, artist.threads, artist.name⟩

/-- The album loop of `get_recent_track` (`spotipy_utils.py:54`), as a fold
over the provider's album enumeration carrying `(all_tracks, latest_track)`.
A `TypeError` from date parsing is caught (`continue`); a `ValueError`
propagates. A failed `album_tracks` call (`track_items = none`) is caught and
the album skipped. In the recent branch the first track of the album becomes
`latest_track` if it is still unset. -/
def process_album (today : PDate) (artist : Artist) (n_days_ago : Nat)
    (acc : List TrackRecord × Option TrackRecord) (album : Album) :
    Except FetchExc (List TrackRecord × Option TrackRecord) :=
  match parse_date today album.release_date with
  | .error .typeError => .ok acc
  | .error .valueError => .error .valueError
  | .ok release_date =>
    match classify_release (days_from_civil today) (days_from_civil ⟨today.year, 1, 1⟩)
        n_days_ago (days_from_civil release_date) with
    | .recent =>
      match album.track_items with
      | none => .ok acc
      | some ts =>
        let recs := ts.map (mk_track_info artist (album.release_date.getD ""))
        let latest' := match acc.2 with
          | none => recs.head?
          | some t => some t
        .ok (acc.1 ++ recs, latest')
    | .ytd =>
      match album.track_items with
      | none => .ok acc
      | some ts => .ok (acc.1 ++ ts.map (mk_track_info artist (album.release_date.getD "")), acc.2)
    | .ignored => .ok acc

/-- The iteration over the album enumeration, sequencing `process_album` and
propagating an uncaught exception. -/
def process_albums (today : PDate) (artist : Artist) (n_days_ago : Nat) :
    List Album → List TrackRecord × Option TrackRecord →
    Except FetchExc (List TrackRecord × Option TrackRecord)
  | [], acc => .ok acc
  | album :: rest, acc =>
    match process_album today artist n_days_ago acc album with
    | .error e => .error e
    | .ok acc' => process_albums today artist n_days_ago rest acc'

/-- The final `all_tracks.sort(key=lambda x: x[2], reverse=True)`: a stable
sort, descending on the raw date string. -/
def sort_by_date_desc (l : List TrackRecord) : List TrackRecord :=
  List.insertionSort (fun a b => pystr_le b.release_date a.release_date = true) l

/-- Embedding of `get_recent_track` (`spotipy_utils.py:20`). The
`albums_response` argument is the `artist_albums` provider response, `none`
modelling that call raising (caught at `spotipy_utils.py:43`, yielding
`([], None)`). -/
def get_recent_track (today : PDate) (artist : Artist) (albums_response : Option (List Album))
    (n_days_ago : Nat) : Except FetchExc (List TrackRecord × Option TrackRecord) :=
  if artist.spotify_id.isNone then .error .keyError
  else
    match albums_response with
    | none => .ok ([], none)
    | some albums =>
      match process_albums today artist n_days_ago albums ([], none) with
      | .error e => .error e
      | .ok (all_tracks, latest_track) => .ok (sort_by_date_desc all_tracks, latest_track)

/-- Specification-side definition (following the spec's words, for comparison
with the embedded code): the track records a single album contributes to the
recent window — its listed tracks when its date parses and classifies as
recent, nothing otherwise. -/
def recent_records (today : PDate) (artist : Artist) (n_days_ago : Nat) (album : Album) :
    List TrackRecord :=
  match parse_date today album.release_date with
  | .ok release_date =>
    match classify_release (days_from_civil today) (days_from_civil ⟨today.year, 1, 1⟩)
        n_days_ago (days_from_civil release_date) with
    | .recent => (album.track_items.getD []).map (mk_track_info artist (album.release_date.getD ""))
    | _ => []
  | .error _ => []

/-- Specification-side definition (following the spec's words): the first
track encountered across all recent-window releases, in the provider's album
enumeration order — `none` when no recent release yields a track. -/
def spec_latest_recent (today : PDate) (artist : Artist) (n_days_ago : Nat)
    (albums : List Album) : Option TrackRecord :=
  (albums.flatMap (recent_records today artist n_days_ago)).head?

/-- Title accessor on a raw track tuple (index 1). For `deduplicate_track_list`
the Python tuples are modelled as `List String`, so that arity (the
`len(track) < 5` malformed-record check) is expressible; the two optional
fields are carried as strings since deduplication never inspects them. -/
def tr_title (r : List String) : String := r.getD 1 ""

/-- Release-date accessor on a raw track tuple (index 2). -/
def tr_rdate (r : List String) : String := r.getD 2 ""

/-- Lookup in an insertion-ordered dictionary (Python `dict` as an
association list). -/
def dict_lookup (k : String) : List (String × List String) → Option (List String)
  | [] => none
  | (k', v) :: rest => if k' = k then some v else dict_lookup k rest

/-- Python `track_dict[name] = track`: replace the value at an existing key in
place, else append a new entry (insertion order preserved). -/
def dict_insert (k : String) (v : List String) :
    List (String × List String) → List (String × List String)
  | [] => [(k, v)]
  | (k', v') :: rest => if k' = k then (k', v) :: rest else (k', v') :: dict_insert k v rest

/-- The loop of `deduplicate_track_list` (`spotipy_utils.py:144`): records
shorter than 5 fields are skipped; a 5-field record is unpacked and stored
when its title is new or its release date is strictly greater than the stored
one; a record longer than 5 fields makes Python's 5-way unpacking raise a
`ValueError` (modelled as `none`). -/
def dedup_go : List (List String) → List (String × List String) →
    Option (List (String × List String))
  | [], track_dict => some track_dict
  | track :: rest, track_dict =>
    if track.length < 5 then dedup_go rest track_dict
    else if track.length = 5 then
      let name := tr_title track
      let release_date := tr_rdate track
      let d' := match dict_lookup name track_dict with
        | none => dict_insert name track track_dict
        | some old =>
          if pystr_lt (tr_rdate old) release_date then dict_insert name track track_dict
          else track_dict
      dedup_go rest d'
    else none

/-- Embedding of `deduplicate_track_list` (`spotipy_utils.py:130`): build the
title-keyed dictionary, take its values in insertion order, and stably sort
them ascending by release date. -/
def deduplicate_track_list (tracks : List (List String)) : Option (List (List String)) :=
  match dedup_go tracks [] with
  | none => none
  | some track_dict =>
    some (List.insertionSort
      (fun a b => pystr_le (tr_rdate a) (tr_rdate b) = true)
      (track_dict.map Prod.snd))

/-- One step of the per-title folding that `dedup_go` performs on the records
of a fixed title: keep the stored record unless the new same-titled well-formed
record has a strictly greater date. -/
def best_step (t : String) (acc : Option (List String)) (r : List String) :
    Option (List String) :=
  if r.length = 5 ∧ tr_title r = t then
    match acc with
    | none => some r
    | some b => if pystr_lt (tr_rdate b) (tr_rdate r) then some r else acc
  else acc

/-- The record retained for title `t` after folding over the whole input. -/
def best_for (t : String) (tracks : List (List String)) : Option (List String) :=
  tracks.foldl (best_step t) none

/-- The C3 claim as a predicate on input and output of `deduplicate_track_list`:
at most one record per distinct title; for every well-formed input record, the
output contains a record of the same title that (a) no same-titled well-formed
input strictly exceeds in release date, and (b) occurs in the input strictly
after every same-titled well-formed record of strictly smaller date — i.e. it
is the first record attaining the maximum date (ties keep the first seen). -/
def DedupSpec (tracks out : List (List String)) : Prop :=
  (out.map tr_title).Nodup
  ∧ ∀ r0 ∈ tracks, r0.length = 5 →
      ∃ u pre post, u ∈ out ∧ tr_title u = tr_title r0 ∧ u.length = 5
        ∧ tracks = pre ++ u :: post
        ∧ (∀ r ∈ tracks, r.length = 5 → tr_title r = tr_title r0 →
            pystr_lt (tr_rdate u) (tr_rdate r) = false)
        ∧ (∀ r ∈ pre, r.length = 5 → tr_title r = tr_title r0 →
            pystr_lt (tr_rdate r) (tr_rdate u) = true)

/-- Consecutive chunks of at most `ps` elements, with an explicit structural
fuel (the list length) so the function evaluates by reduction. -/
def chunk_fuel (ps : Nat) : Nat → List α → List (List α)
  | _, [] => []
  | 0, _ :: _ => []
  | fuel + 1, x :: xs => ((x :: xs).take ps) :: chunk_fuel ps fuel ((x :: xs).drop ps)

/-- Consecutive chunks of at most `ps` elements. This realises both the
provider's paging of `playlist_tracks` results and the 50-at-a-time upload
loop `range(0, len(new_all_tracks), 50)` at `update_spotify_playlists.py:198`. -/
def chunk_list (ps : Nat) (l : List α) : List (List α) :=
  chunk_fuel ps l.length l

/-- A provider call recorded by the embedding: the mutating calls
`update_playlists` issues, and the page reads of `get_playlist_tracks`. -/
inductive ApiCall where
  | add (playlist_id : String) (track_ids : List String) (position : Nat)
  | remove (playlist_id : String) (track_ids : List String)
  | page (playlist_id : String) (index : Nat)
  deriving DecidableEq, Repr

/-- Provider-side state: each playlist id maps to its ordered track-id list
(head = position 0); `page_size` is the positive page length the provider
uses when returning playlist tracks (Spotify's default is 100). -/
structure SpotifyState where
  playlists : String → List String
  page_size : Nat
  page_size_pos : 0 < page_size

/-- Python truthiness of an optional string (`if not playlist_id`): `None`
and the empty string are falsy. -/
def falsy : Option String → Bool
  | none => true
  | some s => s.data.isEmpty

/-- Embedding of `get_playlist_tracks` (`spotipy_utils.py:108`): raise
`ValueError` on a falsy playlist id before any provider call; otherwise read
the first page and follow `next` pages until exhausted, returning the
concatenation of all pages. The second component is the trace of page reads
issued (one per page, at least one for the initial call). -/
def get_playlist_tracks (st : SpotifyState) (playlist_id : Option String) :
    Except Unit (List String) × List ApiCall :=
  if falsy playlist_id then (.error (), [])
  else
    let s := playlist_id.getD ""
    let pages := chunk_list st.page_size (st.playlists s)
    (.ok pages.flatten, (List.range (max 1 pages.length)).map (fun i => .page s i))

/-- The list comprehensions at `update_spotify_playlists.py:164` and `:168`:
desired tracks whose id is absent from the fetched membership. -/
def new_tracks (desired : List TrackRecord) (existing_ids : List String) :
    List TrackRecord :=
  desired.filter (fun track => decide (track.track_id ∉ existing_ids))

/-- The comprehension at `update_spotify_playlists.py:180`: fetched ids whose
track no longer appears in the desired list. -/
def old_track_ids (existing_ids : List String) (desired : List TrackRecord) :
    List String :=
  existing_ids.filter (fun i => decide (i ∉ desired.map TrackRecord.track_id))

/-- Provider semantics of `playlist_add_items(pid, ids, position=pos)`: the
ids are spliced in at `pos`, keeping their relative order. -/
def playlist_add (st : SpotifyState) (pid : String) (ids : List String) (pos : Nat) :
    SpotifyState :=
  { st with playlists := fun p =>
      if p = pid then (st.playlists p).take pos ++ ids ++ (st.playlists p).drop pos
      else st.playlists p }

/-- Provider semantics of `playlist_remove_all_occurrences_of_items`. -/
def playlist_remove (st : SpotifyState) (pid : String) (ids : List String) :
    SpotifyState :=
  { st with playlists := fun p =>
      if p = pid then (st.playlists p).filter (fun i => decide (i ∉ ids))
      else st.playlists p }

/-- The upload loop at `update_spotify_playlists.py:198`: each chunk is added
at position 0, in chunk order, accumulating state and trace. -/
def add_chunks (pid : String) : SpotifyState → List (List String) →
    SpotifyState × List ApiCall
  | st, [] => (st, [])
  | st, c :: cs =>
    let next := add_chunks pid (playlist_add st pid c 0) cs
    (next.1, .add pid c 0 :: next.2)

/-- The configuration fields `update_playlists` reads. -/
structure Config where
  rr_playlist_id : Option String
  all_playlist_id : Option String
  dry_run : Bool

/-- Embedding of `update_playlists` (`update_spotify_playlists.py:157`).
Returns the provider state after the run, the trace of mutating calls in
order, and the function's Python return value `(new_rr_tracks,
new_all_tracks)`. Mirrors the source line by line: the recent-releases
membership is the first page only (line 160); the all-tracks membership is
fully paged via `get_playlist_tracks` (line 161, whose `ValueError`
propagates); the dry-run return happens before any removal list is computed
(line 175); removal precedes addition for the recent playlist (lines
184-192, the addition being one unchunked call); the all-tracks additions
are chunked 50 at a time at position 0 (lines 198-203). -/
def update_playlists (st : SpotifyState) (config : Config)
    (rr_playlist_tracks all_playlist_tracks : List TrackRecord) :
    Except Unit (SpotifyState × List ApiCall × List TrackRecord × List TrackRecord) :=
  let rrs := config.rr_playlist_id.getD ""
  let existing_rr := (st.playlists rrs).take st.page_size
  match (get_playlist_tracks st config.all_playlist_id).1 with
  | .error e => .error e
  | .ok existing_all =>
    let new_rr := new_tracks rr_playlist_tracks existing_rr
    let new_all := new_tracks all_playlist_tracks existing_all
    if config.dry_run then
      .ok (st, [], new_rr, new_all)
    else
      let old_rr_track_ids := old_track_ids existing_rr rr_playlist_tracks
      let step1 :=
        if old_rr_track_ids.isEmpty then (st, ([] : List ApiCall))
        else (playlist_remove st rrs old_rr_track_ids, [.remove rrs old_rr_track_ids])
      let step2 :=
        if new_rr.isEmpty then (step1.1, ([] : List ApiCall))
        else (playlist_add step1.1 rrs (new_rr.map TrackRecord.track_id) 0,
              [.add rrs (new_rr.map TrackRecord.track_id) 0])
      let alls := config.all_playlist_id.getD ""
      let step3 :=
        if new_all.isEmpty then (step2.1, ([] : List ApiCall))
        else add_chunks alls step2.1 (chunk_list 50 (new_all.map TrackRecord.track_id))
      .ok (step3.1, step1.2 ++ step2.2 ++ step3.2, new_rr, new_all)

theorem classify_release_spec (T Y D : Int) (n : Nat) :
    (classify_release T Y n D = .recent ↔ (T - n ≤ D ∧ D ≤ T))
    ∧ (classify_release T Y n D = .ytd ↔ (Y ≤ D ∧ D < T - n))
    ∧ (classify_release T Y n D = .ignored ↔ ¬(T - n ≤ D ∧ D ≤ T) ∧ ¬(Y ≤ D ∧ D < T - n)) := by
  dsimp only [classify_release]
  split_ifs with h1 h2 <;> refine ⟨?_, ?_, ?_⟩ <;> simp_all <;> omega

/-- C4: for every release date `d`, exactly one of recent / year-to-date-not-recent /
ignored holds, determined solely by `d` relative to `today`, the lookback `n`, and
January 1 of today's year: recent iff `recentStart ≤ d ≤ today` (both inclusive),
year-to-date-not-recent iff `yearStart ≤ d < recentStart`, ignored otherwise. -/
theorem window_partition_c4 (today d : PDate) (n : Nat) :
    (classify_release (days_from_civil today) (days_from_civil ⟨today.year, 1, 1⟩) n
        (days_from_civil d) = .recent
      ↔ ((days_from_civil today : Int) - n ≤ days_from_civil d
          ∧ (days_from_civil d : Int) ≤ days_from_civil today))
    ∧ (classify_release (days_from_civil today) (days_from_civil ⟨today.year, 1, 1⟩) n
        (days_from_civil d) = .ytd
      ↔ ((days_from_civil ⟨today.year, 1, 1⟩ : Int) ≤ days_from_civil d
          ∧ (days_from_civil d : Int) < (days_from_civil today : Int) - n))
    ∧ (classify_release (days_from_civil today) (days_from_civil ⟨today.year, 1, 1⟩) n
        (days_from_civil d) = .ignored
      ↔ ¬((days_from_civil today : Int) - n ≤ days_from_civil d
            ∧ (days_from_civil d : Int) ≤ days_from_civil today)
        ∧ ¬((days_from_civil ⟨today.year, 1, 1⟩ : Int) ≤ days_from_civil d
            ∧ (days_from_civil d : Int) < (days_from_civil today : Int) - n)) :=
  classify_release_spec (days_from_civil today) (days_from_civil ⟨today.year, 1, 1⟩)
    (days_from_civil d) n

/-- C6 counterexample: with today = 2024-06-20, the year-precision string `2024`
parses to 2024-06-20 and the month-precision string `2024-03` parses to
2024-03-20 — the missing month/day are filled from today's date, not treated
as the 1st, so `2024` is not treated as 2024-01-01 nor `2024-06` as the first
of the month. -/
theorem date_precision_counterexample_c6 :
    parse_date ⟨2024, 6, 20⟩ (some "2024") = .ok ⟨2024, 6, 20⟩
    ∧ parse_date ⟨2024, 6, 20⟩ (some "2024-03") = .ok ⟨2024, 3, 20⟩
    ∧ (⟨2024, 6, 20⟩ : PDate) ≠ ⟨2024, 1, 1⟩
    ∧ (⟨2024, 3, 20⟩ : PDate) ≠ ⟨2024, 3, 1⟩ := by
  decide

theorem chars_to_nat_no_dash {l : List Char} {y : Nat} (h : chars_to_nat l = some y) :
    '-' ∉ l := by
  intro hm
  unfold chars_to_nat at h
  split_ifs at h with hc
  have := hc.2
  rw [List.all_eq_true] at this
  have := this _ hm
  simp [Char.isDigit] at this

theorem split_dashes_no_dash {l : List Char} (h : '-' ∉ l) : split_dashes l = [l] := by
  induction l with
  | nil => rfl
  | cons c cs ih =>
    have hc : ¬ c = '-' := fun hc => h (hc ▸ List.mem_cons_self c cs)
    have hcs : '-' ∉ cs := fun hm => h (List.mem_cons_of_mem _ hm)
    simp [split_dashes, hc, ih hcs]

theorem split_dashes_append {l : List Char} (r : List Char) (h : '-' ∉ l) :
    split_dashes (l ++ '-' :: r) = l :: split_dashes r := by
  induction l with
  | nil => simp [split_dashes]
  | cons c cs ih =>
    have hc : ¬ c = '-' := fun hc => h (hc ▸ List.mem_cons_self c cs)
    have hcs : '-' ∉ cs := fun hm => h (List.mem_cons_of_mem _ hm)
    have := ih hcs
    simp only [List.cons_append, split_dashes, hc, if_false, List.append_eq, this]

/-- C6 amended: when a provider date string has year-only or year-month
precision, the missing month and/or day are filled from the current date
(the parser's default), the defaulted day clamped to the target month's
length — not treated as the 1st. -/
theorem date_precision_amended_c6 (today : PDate) (ys ms : List Char) (y m : Nat)
    (hy : chars_to_nat ys = some y) (hyr : 1 ≤ y ∧ y ≤ 9999)
    (hm : chars_to_nat ms = some m) (hmr : 1 ≤ m ∧ m ≤ 12) :
    parse_date today (some (String.mk ys))
        = .ok ⟨y, today.month, min today.day (days_in_month y today.month)⟩
    ∧ parse_date today (some (String.mk (ys ++ '-' :: ms)))
        = .ok ⟨y, m, min today.day (days_in_month y m)⟩ := by
  have hysd : '-' ∉ ys := chars_to_nat_no_dash hy
  have hmsd : '-' ∉ ms := chars_to_nat_no_dash hm
  constructor
  · unfold parse_date
    dsimp only
    rw [split_dashes_no_dash hysd]
    simp [hy, hyr.1, hyr.2]
  · unfold parse_date
    dsimp only
    rw [split_dashes_append ms hysd, split_dashes_no_dash hmsd]
    simp [hy, hm, hyr.1, hyr.2, hmr.1, hmr.2]

theorem date_precision_amended_c6_witness :
    parse_date ⟨2024, 6, 20⟩ (some (String.mk ['2', '0', '2', '4'])) = .ok ⟨2024, 6, 20⟩
    ∧ parse_date ⟨2024, 6, 20⟩ (some (String.mk (['2', '0', '2', '4'] ++ '-' :: ['0', '3'])))
        = .ok ⟨2024, 3, 20⟩ :=
  date_precision_amended_c6 ⟨2024, 6, 20⟩ ['2', '0', '2', '4'] ['0', '3'] 2024 3
    (by decide) (by decide) (by decide) (by decide)

theorem process_album_typeError (today : PDate) (artist : Artist) (n_days_ago : Nat)
    (acc : List TrackRecord × Option TrackRecord) (album : Album)
    (hp : parse_date today album.release_date = .error .typeError) :
    process_album today artist n_days_ago acc album = .ok acc := by
  unfold process_album
  rw [hp]

theorem process_albums_cons (today : PDate) (artist : Artist) (n_days_ago : Nat)
    (album : Album) (rest : List Album) (acc : List TrackRecord × Option TrackRecord) :
    process_albums today artist n_days_ago (album :: rest) acc
      = match process_album today artist n_days_ago acc album with
        | .error e => .error e
        | .ok acc' => process_albums today artist n_days_ago rest acc' := rfl

/-- C5 amended: a release whose date raises a `TypeError` when parsed (a
missing/null date) is skipped and the artist's remaining releases are still
processed — `get_recent_track` computes the same result with those releases
removed up front. (For a present-but-unparseable date string the parser
raises a `ValueError`, which is not caught; see the C5 counterexample.) -/
theorem parse_failure_amended_c5 (today : PDate) (artist : Artist)
    (albums_response : Option (List Album)) (n_days_ago : Nat) :
    get_recent_track today artist albums_response n_days_ago
      = get_recent_track today artist
          (albums_response.map (List.filter (fun album =>
            decide (parse_date today album.release_date ≠ .error .typeError))))
          n_days_ago := by
  unfold get_recent_track
  cases albums_response with
  | none => rfl
  | some albums =>
    have key : ∀ (l : List Album) (acc : List TrackRecord × Option TrackRecord),
        process_albums today artist n_days_ago l acc
          = process_albums today artist n_days_ago
              (l.filter (fun album =>
                decide (parse_date today album.release_date ≠ .error .typeError))) acc := by
      intro l
      induction l with
      | nil => intro acc; rfl
      | cons album rest ih =>
        intro acc
        by_cases hp : parse_date today album.release_date = .error .typeError
        · rw [List.filter_cons, if_neg (by simp [hp])]
          rw [process_albums_cons, process_album_typeError today artist n_days_ago acc album hp]
          exact ih acc
        · rw [List.filter_cons, if_pos (by simp [hp])]
          rw [process_albums_cons, process_albums_cons]
          cases h : process_album today artist n_days_ago acc album with
          | error e => rfl
          | ok acc' => exact ih acc'
    dsimp only [Option.map]
    rw [key albums]

/-- C5 counterexample: an album whose date string is present but unparseable
(here the real-world provider value `0000`) raises a `ValueError`, which the
code's `except TypeError` does not catch — the whole artist fetch aborts, and
a later recent release (`al2`, which on its own yields a track) contributes
nothing; the claimed skip-and-continue behavior does not happen for this
release. -/
theorem parse_failure_counterexample_c5 :
    get_recent_track ⟨2024, 6, 20⟩ ⟨some "aid", some "Art", none⟩
        (some [⟨"al1", "A1", some "0000", some []⟩,
               ⟨"al2", "A2", some "2024-06-15", some [⟨"tr1", "T1"⟩]⟩]) 13
      = .error .valueError
    ∧ get_recent_track ⟨2024, 6, 20⟩ ⟨some "aid", some "Art", none⟩
        (some [⟨"al2", "A2", some "2024-06-15", some [⟨"tr1", "T1"⟩]⟩]) 13
      = .ok ([⟨"tr1", "T1", "2024-06-15", none, some "Art"⟩],
             some ⟨"tr1", "T1", "2024-06-15", none, some "Art"⟩) := by
  constructor
  · decide
  · decide

theorem process_album_latest (today : PDate) (artist : Artist) (n_days_ago : Nat)
    (acc acc' : List TrackRecord × Option TrackRecord) (album : Album)
    (h : process_album today artist n_days_ago acc album = .ok acc') :
    acc'.2 = acc.2.or (recent_records today artist n_days_ago album).head? := by
  unfold process_album at h
  split at h
  · rename_i heq
    simp only [Except.ok.injEq] at h
    subst h
    simp [recent_records, heq, Option.or_none]
  · exact absurd h (by simp)
  · rename_i release_date heq
    split at h
    · rename_i hc
      cases ht : album.track_items with
      | none =>
        rw [ht] at h
        simp only [Except.ok.injEq] at h
        subst h
        simp [recent_records, heq, hc, ht, Option.or_none]
      | some ts =>
        rw [ht] at h
        simp only [Except.ok.injEq] at h
        subst h
        simp only [recent_records, heq, hc, ht, Option.getD_some]
        cases h2 : acc.2 <;> simp [h2, Option.or]
    · rename_i hc
      cases ht : album.track_items with
      | none =>
        rw [ht] at h
        simp only [Except.ok.injEq] at h
        subst h
        simp [recent_records, heq, hc, ht, Option.or_none]
      | some ts =>
        rw [ht] at h
        simp only [Except.ok.injEq] at h
        subst h
        simp [recent_records, heq, hc, ht, Option.or_none]
    · rename_i hc
      simp only [Except.ok.injEq] at h
      subst h
      simp [recent_records, heq, hc, Option.or_none]

theorem process_albums_latest (today : PDate) (artist : Artist) (n_days_ago : Nat)
    (l : List Album) (acc res : List TrackRecord × Option TrackRecord)
    (h : process_albums today artist n_days_ago l acc = .ok res) :
    res.2 = acc.2.or (spec_latest_recent today artist n_days_ago l) := by
  induction l generalizing acc with
  | nil =>
    have h' : (Except.ok acc : Except FetchExc (List TrackRecord × Option TrackRecord))
        = .ok res := h
    simp only [Except.ok.injEq] at h'
    subst h'
    simp [spec_latest_recent, Option.or_none]
  | cons album rest ih =>
    rw [process_albums_cons] at h
    cases hs : process_album today artist n_days_ago acc album with
    | error e => rw [hs] at h; exact absurd h (by simp)
    | ok acc' =>
      rw [hs] at h
      have h2 := ih acc' h
      have h1 := process_album_latest today artist n_days_ago acc acc' album hs
      rw [h2, h1, Option.or_assoc]
      unfold spec_latest_recent
      rw [List.flatMap_cons, List.head?_append]

/-- C9: whenever `get_recent_track` returns normally on an album enumeration,
the returned `latest_track` is exactly the first track encountered across the
recent-window releases in the provider's enumeration order (not date order):
tracks of year-to-date-but-not-recent releases are never chosen, and if no
recent release yields a track the result is `none`. -/
theorem latest_recent_track_c9 (today : PDate) (artist : Artist) (albums : List Album)
    (n_days_ago : Nat) (all_tracks : List TrackRecord) (latest_track : Option TrackRecord)
    (h : get_recent_track today artist (some albums) n_days_ago = .ok (all_tracks, latest_track)) :
    latest_track = spec_latest_recent today artist n_days_ago albums := by
  unfold get_recent_track at h
  by_cases hid : artist.spotify_id.isNone = true
  · rw [if_pos hid] at h
    exact absurd h (by simp)
  · rw [if_neg hid] at h
    dsimp only at h
    cases hp : process_albums today artist n_days_ago albums ([], none) with
    | error e =>
      rw [hp] at h
      exact absurd h (by simp)
    | ok res =>
      obtain ⟨resl, resr⟩ := res
      rw [hp] at h
      dsimp only at h
      simp only [Except.ok.injEq, Prod.mk.injEq] at h
      have hlat := process_albums_latest today artist n_days_ago albums ([], none) (resl, resr) hp
      simp only [Option.or] at hlat
      rw [← h.2, hlat]

theorem latest_recent_track_c9_witness :
    (some ⟨"tr1", "T1", "2024-06-15", none, some "Art"⟩ : Option TrackRecord)
      = spec_latest_recent ⟨2024, 6, 20⟩ ⟨some "aid", some "Art", none⟩ 13
          [⟨"al0", "A0", some "2024-02-01", some [⟨"tr0", "T0"⟩]⟩,
           ⟨"al2", "A2", some "2024-06-15", some [⟨"tr1", "T1"⟩]⟩] :=
  latest_recent_track_c9 ⟨2024, 6, 20⟩ ⟨some "aid", some "Art", none⟩
    [⟨"al0", "A0", some "2024-02-01", some [⟨"tr0", "T0"⟩]⟩,
     ⟨"al2", "A2", some "2024-06-15", some [⟨"tr1", "T1"⟩]⟩] 13
    [⟨"tr1", "T1", "2024-06-15", none, some "Art"⟩,
     ⟨"tr0", "T0", "2024-02-01", none, some "Art"⟩]
    (some ⟨"tr1", "T1", "2024-06-15", none, some "Art"⟩) (by decide)

theorem chars_lt_irrefl : ∀ (a : List Char), chars_lt a a = false := by
  intro a
  induction a with
  | nil => rfl
  | cons x xs ih => simp [chars_lt, ih]

theorem chars_lt_asymm {a : List Char} : ∀ {b : List Char},
    chars_lt a b = true → chars_lt b a = false := by
  induction a with
  | nil =>
    intro b h
    cases b with
    | nil => simp [chars_lt] at h
    | cons y ys => rfl
  | cons x xs ih =>
    intro b h
    cases b with
    | nil => simp [chars_lt] at h
    | cons y ys =>
      simp only [chars_lt] at h ⊢
      split_ifs at h ⊢ <;> first | rfl | omega | exact ih h

theorem chars_lt_trans {a : List Char} : ∀ {b c : List Char},
    chars_lt a b = true → chars_lt b c = true → chars_lt a c = true := by
  induction a with
  | nil =>
    intro b c h1 h2
    cases b <;> cases c <;> simp_all [chars_lt]
  | cons x xs ih =>
    intro b c h1 h2
    cases b with
    | nil => simp [chars_lt] at h1
    | cons y ys =>
      cases c with
      | nil => simp [chars_lt] at h2
      | cons z zs =>
        simp only [chars_lt] at h1 h2 ⊢
        split_ifs at h1 h2 ⊢ <;> first | rfl | omega | exact ih h1 h2

theorem chars_not_lt_lt_trans {b : List Char} : ∀ {a c : List Char},
    chars_lt b a = false → chars_lt b c = true → chars_lt a c = true := by
  induction b with
  | nil =>
    intro a c h1 h2
    cases a <;> cases c <;> simp_all [chars_lt]
  | cons x xs ih =>
    intro a c h1 h2
    cases a with
    | nil =>
      cases c with
      | nil => simp [chars_lt] at h2
      | cons z zs => rfl
    | cons y ys =>
      cases c with
      | nil => simp [chars_lt] at h2
      | cons z zs =>
        simp only [chars_lt] at h1 h2 ⊢
        split_ifs at h1 h2 ⊢ <;> first | rfl | omega | exact ih h1 h2

theorem pystr_lt_irrefl (a : String) : pystr_lt a a = false := chars_lt_irrefl a.data

theorem pystr_lt_asymm {a b : String} (h : pystr_lt a b = true) : pystr_lt b a = false :=
  chars_lt_asymm h

theorem pystr_lt_trans {a b c : String} (h1 : pystr_lt a b = true) (h2 : pystr_lt b c = true) :
    pystr_lt a c = true :=
  chars_lt_trans h1 h2

theorem pystr_not_lt_lt_trans {a b c : String} (h1 : pystr_lt b a = false)
    (h2 : pystr_lt b c = true) : pystr_lt a c = true :=
  chars_not_lt_lt_trans h1 h2

theorem best_step_isSome (t : String) (b : List String) (r : List String) :
    (best_step t (some b) r).isSome := by
  unfold best_step
  split_ifs with hw
  · split <;> first | rfl | (split <;> rfl)
  · rfl

theorem foldl_best_isSome (t : String) :
    ∀ (l : List (List String)) (b : List String),
    (List.foldl (best_step t) (some b) l).isSome := by
  intro l
  induction l with
  | nil => intro b; rfl
  | cons r rest ih =>
    intro b
    rw [List.foldl_cons]
    obtain ⟨c, hc⟩ := Option.isSome_iff_exists.mp (best_step_isSome t b r)
    rw [hc]
    exact ih c

theorem foldl_best_present (t : String) :
    ∀ (l : List (List String)) (acc : Option (List String)) (r0 : List String),
    r0 ∈ l → r0.length = 5 → tr_title r0 = t →
    (List.foldl (best_step t) acc l).isSome := by
  intro l
  induction l with
  | nil => intro acc r0 h0; exact absurd h0 (List.not_mem_nil r0)
  | cons r rest ih =>
    intro acc r0 h0 h5 ht
    rw [List.foldl_cons]
    rcases List.mem_cons.mp h0 with h | h
    · subst h
      have hstep : (best_step t acc r0).isSome := by
        cases acc with
        | none => unfold best_step; rw [if_pos ⟨h5, ht⟩]; rfl
        | some b => exact best_step_isSome t b r0
      obtain ⟨c, hc⟩ := Option.isSome_iff_exists.mp hstep
      rw [hc]
      exact foldl_best_isSome t rest c
    · exact ih (best_step t acc r) r0 h h5 ht

theorem foldl_best_from_some (t : String) :
    ∀ (l : List (List String)) (b u : List String),
    List.foldl (best_step t) (some b) l = some u →
    (u = b ∧ ∀ r ∈ l, r.length = 5 → tr_title r = t →
        pystr_lt (tr_rdate b) (tr_rdate r) = false)
    ∨ (∃ pre post, l = pre ++ u :: post ∧ u.length = 5 ∧ tr_title u = t
        ∧ pystr_lt (tr_rdate b) (tr_rdate u) = true
        ∧ (∀ r ∈ pre, r.length = 5 → tr_title r = t →
            pystr_lt (tr_rdate r) (tr_rdate u) = true)
        ∧ (∀ r ∈ post, r.length = 5 → tr_title r = t →
            pystr_lt (tr_rdate u) (tr_rdate r) = false)) := by
  intro l
  induction l with
  | nil =>
    intro b u h
    simp only [List.foldl_nil, Option.some.injEq] at h
    subst h
    exact Or.inl ⟨rfl, by simp⟩
  | cons r rest ih =>
    intro b u h
    rw [List.foldl_cons] at h
    by_cases hw : r.length = 5 ∧ tr_title r = t
    · rw [show best_step t (some b) r
          = if pystr_lt (tr_rdate b) (tr_rdate r) = true then some r else some b from by
        simp [best_step, hw]] at h
      by_cases hlt : pystr_lt (tr_rdate b) (tr_rdate r) = true
      · rw [if_pos hlt] at h
        rcases ih r u h with ⟨hub, hall⟩ | ⟨pre, post, hsplit, h5, ht, hltru, hpre, hpost⟩
        · subst hub
          exact Or.inr ⟨[], rest, by simp, hw.1, hw.2, hlt, by simp, hall⟩
        · refine Or.inr ⟨r :: pre, post, by simp [hsplit], h5, ht,
            pystr_lt_trans hlt hltru, ?_, hpost⟩
          intro r' hr' h5' ht'
          rcases List.mem_cons.mp hr' with hh | hh
          · subst hh; exact hltru
          · exact hpre r' hh h5' ht'
      · have hltf : pystr_lt (tr_rdate b) (tr_rdate r) = false := by
          cases hx : pystr_lt (tr_rdate b) (tr_rdate r)
          · rfl
          · exact absurd hx hlt
        rw [if_neg hlt] at h
        rcases ih b u h with ⟨hub, hall⟩ | ⟨pre, post, hsplit, h5, ht, hltbu, hpre, hpost⟩
        · subst hub
          refine Or.inl ⟨rfl, ?_⟩
          intro r' hr' h5' ht'
          rcases List.mem_cons.mp hr' with hh | hh
          · subst hh; exact hltf
          · exact hall r' hh h5' ht'
        · refine Or.inr ⟨r :: pre, post, by simp [hsplit], h5, ht, hltbu, ?_, hpost⟩
          intro r' hr' h5' ht'
          rcases List.mem_cons.mp hr' with hh | hh
          · subst hh; exact pystr_not_lt_lt_trans hltf hltbu
          · exact hpre r' hh h5' ht'
    · rw [show best_step t (some b) r = some b from by simp [best_step, hw]] at h
      rcases ih b u h with ⟨hub, hall⟩ | ⟨pre, post, hsplit, h5, ht, hltbu, hpre, hpost⟩
      · subst hub
        refine Or.inl ⟨rfl, ?_⟩
        intro r' hr' h5' ht'
        rcases List.mem_cons.mp hr' with hh | hh
        · subst hh; exact absurd ⟨h5', ht'⟩ hw
        · exact hall r' hh h5' ht'
      · refine Or.inr ⟨r :: pre, post, by simp [hsplit], h5, ht, hltbu, ?_, hpost⟩
        intro r' hr' h5' ht'
        rcases List.mem_cons.mp hr' with hh | hh
        · subst hh; exact absurd ⟨h5', ht'⟩ hw
        · exact hpre r' hh h5' ht'

theorem best_for_spec (t : String) :
    ∀ (tracks : List (List String)) (u : List String),
    best_for t tracks = some u →
    ∃ pre post, tracks = pre ++ u :: post ∧ u.length = 5 ∧ tr_title u = t
      ∧ (∀ r ∈ tracks, r.length = 5 → tr_title r = t →
          pystr_lt (tr_rdate u) (tr_rdate r) = false)
      ∧ (∀ r ∈ pre, r.length = 5 → tr_title r = t →
          pystr_lt (tr_rdate r) (tr_rdate u) = true) := by
  intro tracks
  induction tracks with
  | nil => intro u h; simp [best_for] at h
  | cons r rest ih =>
    intro u h
    unfold best_for at h
    rw [List.foldl_cons] at h
    by_cases hw : r.length = 5 ∧ tr_title r = t
    · rw [show best_step t none r = some r from by simp [best_step, hw]] at h
      rcases foldl_best_from_some t rest r u h with
        ⟨hub, hall⟩ | ⟨pre, post, hsplit, h5, ht, hltru, hpre, hpost⟩
      · subst hub
        refine ⟨[], rest, by simp, hw.1, hw.2, ?_, by simp⟩
        intro r' hr' h5' ht'
        rcases List.mem_cons.mp hr' with hh | hh
        · rw [hh]; exact pystr_lt_irrefl _
        · exact hall r' hh h5' ht'
      · refine ⟨r :: pre, post, by simp [hsplit], h5, ht, ?_, ?_⟩
        · intro r' hr' h5' ht'
          rcases List.mem_cons.mp hr' with hh | hh
          · rw [hh]; exact pystr_lt_asymm hltru
          · rw [hsplit] at hh
            rcases List.mem_append.mp hh with hh2 | hh2
            · exact pystr_lt_asymm (hpre r' hh2 h5' ht')
            · rcases List.mem_cons.mp hh2 with hh3 | hh3
              · rw [hh3]; exact pystr_lt_irrefl _
              · exact hpost r' hh3 h5' ht'
        · intro r' hr' h5' ht'
          rcases List.mem_cons.mp hr' with hh | hh
          · subst hh; exact hltru
          · exact hpre r' hh h5' ht'
    · rw [show best_step t none r = none from by simp [best_step, hw]] at h
      rcases ih u h with ⟨pre, post, hsplit, h5, ht, hmax, hpre⟩
      refine ⟨r :: pre, post, by simp [hsplit], h5, ht, ?_, ?_⟩
      · intro r' hr' h5' ht'
        rcases List.mem_cons.mp hr' with hh | hh
        · subst hh; exact absurd ⟨h5', ht'⟩ hw
        · exact hmax r' hh h5' ht'
      · intro r' hr' h5' ht'
        rcases List.mem_cons.mp hr' with hh | hh
        · subst hh; exact absurd ⟨h5', ht'⟩ hw
        · exact hpre r' hh h5' ht'

theorem dict_lookup_insert (t k : String) (v : List String) :
    ∀ (d : List (String × List String)),
    dict_lookup t (dict_insert k v d) = if k = t then some v else dict_lookup t d := by
  intro d
  induction d with
  | nil => simp [dict_insert, dict_lookup]
  | cons p rest ih =>
    obtain ⟨k', v'⟩ := p
    by_cases hk : k' = k
    · subst hk
      by_cases ht : k' = t <;> simp [dict_insert, dict_lookup, ht]
    · by_cases h1 : k' = t
      · subst h1
        have hkt : ¬ k = k' := fun hh => hk hh.symm
        simp [dict_insert, hk, dict_lookup, hkt]
      · by_cases h2 : k = t
        · subst h2
          simp [dict_insert, hk, dict_lookup, h1, ih]
        · simp [dict_insert, hk, dict_lookup, h1, h2, ih]

theorem dict_lookup_mem {t : String} {v : List String} :
    ∀ {d : List (String × List String)}, dict_lookup t d = some v → (t, v) ∈ d := by
  intro d
  induction d with
  | nil => intro h; simp [dict_lookup] at h
  | cons p rest ih =>
    obtain ⟨k', v'⟩ := p
    intro h
    simp only [dict_lookup] at h
    split_ifs at h with hk
    · simp only [Option.some.injEq] at h
      subst hk
      subst h
      exact List.mem_cons_self _ _
    · exact List.mem_cons_of_mem _ (ih h)

theorem dict_lookup_none_keys {k : String} :
    ∀ {d : List (String × List String)}, dict_lookup k d = none → k ∉ d.map Prod.fst := by
  intro d
  induction d with
  | nil => intro _; simp
  | cons p rest ih =>
    obtain ⟨k', v'⟩ := p
    intro h
    simp only [dict_lookup] at h
    by_cases hk : k' = k
    · rw [if_pos hk] at h
      exact absurd h (by simp)
    · rw [if_neg hk] at h
      simp only [List.map_cons, List.mem_cons]
      rintro (hh | hh)
      · exact hk hh.symm
      · exact ih h hh

theorem dict_insert_keys_of_none {k : String} (v : List String) :
    ∀ {d : List (String × List String)}, dict_lookup k d = none →
    (dict_insert k v d).map Prod.fst = d.map Prod.fst ++ [k] := by
  intro d
  induction d with
  | nil => intro _; simp [dict_insert]
  | cons p rest ih =>
    obtain ⟨k', v'⟩ := p
    intro h
    simp only [dict_lookup] at h
    by_cases hk : k' = k
    · rw [if_pos hk] at h
      exact absurd h (by simp)
    · rw [if_neg hk] at h
      simp [dict_insert, hk, ih h]

theorem dict_insert_keys_of_some {k : String} {w : List String} (v : List String) :
    ∀ {d : List (String × List String)}, dict_lookup k d = some w →
    (dict_insert k v d).map Prod.fst = d.map Prod.fst := by
  intro d
  induction d with
  | nil => intro h; simp [dict_lookup] at h
  | cons p rest ih =>
    obtain ⟨k', v'⟩ := p
    intro h
    simp only [dict_lookup] at h
    split_ifs at h with hk
    · subst hk
      simp [dict_insert]
    · simp [dict_insert, hk, ih h]

theorem dict_insert_mem {p : String × List String} {k : String} {v : List String} :
    ∀ {d : List (String × List String)}, p ∈ dict_insert k v d → p = (k, v) ∨ p ∈ d := by
  intro d
  induction d with
  | nil =>
    intro h
    simp only [dict_insert, List.mem_singleton] at h
    exact Or.inl h
  | cons q rest ih =>
    obtain ⟨k', v'⟩ := q
    intro h
    by_cases hk : k' = k
    · subst hk
      simp only [dict_insert, if_pos rfl] at h
      rcases List.mem_cons.mp h with hh | hh
      · exact Or.inl (by rw [hh])
      · exact Or.inr (List.mem_cons_of_mem _ hh)
    · simp only [dict_insert, if_neg hk] at h
      rcases List.mem_cons.mp h with hh | hh
      · exact Or.inr (by rw [hh]; exact List.mem_cons_self _ _)
      · rcases ih hh with h2 | h2
        · exact Or.inl h2
        · exact Or.inr (List.mem_cons_of_mem _ h2)

theorem dedup_go_cons (track : List String) (rest : List (List String))
    (d : List (String × List String)) :
    dedup_go (track :: rest) d
      = if track.length < 5 then dedup_go rest d
        else if track.length = 5 then
          dedup_go rest (match dict_lookup (tr_title track) d with
            | none => dict_insert (tr_title track) track d
            | some old =>
              if pystr_lt (tr_rdate old) (tr_rdate track) then
                dict_insert (tr_title track) track d
              else d)
        else none := rfl

theorem dedup_go_lookup :
    ∀ (l : List (List String)) (d d' : List (String × List String)),
    dedup_go l d = some d' → ∀ t,
    dict_lookup t d' = List.foldl (best_step t) (dict_lookup t d) l := by
  intro l
  induction l with
  | nil =>
    intro d d' h t
    have h' : d = d' := by simpa [dedup_go] using h
    subst h'
    simp
  | cons track rest ih =>
    intro d d' h t
    rw [dedup_go_cons] at h
    rw [List.foldl_cons]
    by_cases h5 : track.length < 5
    · rw [if_pos h5] at h
      have hstep : best_step t (dict_lookup t d) track = dict_lookup t d := by
        unfold best_step
        rw [if_neg (fun hc => by omega)]
      rw [hstep]
      exact ih d d' h t
    · rw [if_neg h5] at h
      by_cases heq : track.length = 5
      · rw [if_pos heq] at h
        have hstep : dict_lookup t (match dict_lookup (tr_title track) d with
            | none => dict_insert (tr_title track) track d
            | some old =>
              if pystr_lt (tr_rdate old) (tr_rdate track) then
                dict_insert (tr_title track) track d
              else d)
            = best_step t (dict_lookup t d) track := by
          by_cases ht : tr_title track = t
          · subst ht
            cases hl : dict_lookup (tr_title track) d with
            | none =>
              simp only [hl]
              rw [dict_lookup_insert]
              simp [best_step, heq, hl]
            | some old =>
              simp only [hl]
              by_cases hlt : pystr_lt (tr_rdate old) (tr_rdate track) = true
              · rw [if_pos hlt, dict_lookup_insert]
                simp [best_step, heq, hl, hlt]
              · rw [if_neg hlt]
                simp [best_step, heq, hl, hlt]
          · cases hl : dict_lookup (tr_title track) d with
            | none =>
              simp only [hl]
              rw [dict_lookup_insert, if_neg ht]
              simp [best_step, ht]
            | some old =>
              simp only [hl]
              split_ifs with hlt
              · rw [dict_lookup_insert, if_neg ht]
                simp [best_step, ht]
              · simp [best_step, ht]
        rw [ih _ d' h t, hstep]
      · rw [if_neg heq] at h
        exact absurd h (by simp)

theorem dedup_go_inv :
    ∀ (l : List (List String)) (d d' : List (String × List String)),
    dedup_go l d = some d' →
    ((d.map Prod.fst).Nodup ∧ ∀ p ∈ d, tr_title p.2 = p.1 ∧ p.2.length = 5) →
    (d'.map Prod.fst).Nodup ∧ ∀ p ∈ d', tr_title p.2 = p.1 ∧ p.2.length = 5 := by
  intro l
  induction l with
  | nil =>
    intro d d' h hinv
    have h' : d = d' := by simpa [dedup_go] using h
    subst h'
    exact hinv
  | cons track rest ih =>
    intro d d' h hinv
    rw [dedup_go_cons] at h
    by_cases h5 : track.length < 5
    · rw [if_pos h5] at h
      exact ih d d' h hinv
    · rw [if_neg h5] at h
      by_cases heq : track.length = 5
      · rw [if_pos heq] at h
        refine ih _ d' h ?_
        cases hl : dict_lookup (tr_title track) d with
        | none =>
          dsimp only
          constructor
          · rw [dict_insert_keys_of_none _ hl, ← List.concat_eq_append]
            exact List.Nodup.concat (dict_lookup_none_keys hl) hinv.1
          · intro p hp
            rcases dict_insert_mem hp with hh | hh
            · rw [hh]
              exact ⟨rfl, heq⟩
            · exact hinv.2 p hh
        | some old =>
          dsimp only
          split_ifs with hlt
          · constructor
            · rw [dict_insert_keys_of_some _ hl]
              exact hinv.1
            · intro p hp
              rcases dict_insert_mem hp with hh | hh
              · rw [hh]
                exact ⟨rfl, heq⟩
              · exact hinv.2 p hh
          · exact hinv
      · rw [if_neg heq] at h
        exact absurd h (by simp)

theorem dedup_go_filter :
    ∀ (l : List (List String)) (d : List (String × List String)),
    dedup_go l d = dedup_go (l.filter (fun r => decide (¬ r.length < 5))) d := by
  intro l
  induction l with
  | nil => intro d; rfl
  | cons track rest ih =>
    intro d
    by_cases h5 : track.length < 5
    · rw [List.filter_cons, if_neg (by simp [h5])]
      rw [dedup_go_cons, if_pos h5]
      exact ih d
    · rw [List.filter_cons, if_pos (by simp [h5])]
      rw [dedup_go_cons, dedup_go_cons, if_neg h5, if_neg h5]
      by_cases heq : track.length = 5
      · rw [if_pos heq, if_pos heq]
        exact ih _
      · rw [if_neg heq, if_neg heq]

/-- C3: on any input on which `deduplicate_track_list` returns normally (no
oversized tuple makes the 5-way unpacking raise), the output has at most one
record per distinct title; for every well-formed (5-field) input record the
output retains a same-titled record attaining the maximum release date among
all same-titled well-formed inputs, ties broken by the first-seen record
(replacement only on a strictly greater date); and records with fewer than 5
fields are skipped (removing them up front does not change the result). -/
theorem dedup_correct_c3 (tracks out : List (List String))
    (h : deduplicate_track_list tracks = some out) :
    DedupSpec tracks out
    ∧ deduplicate_track_list (tracks.filter (fun r => decide (¬ r.length < 5)))
        = some out := by
  have hfil : deduplicate_track_list (tracks.filter (fun r => decide (¬ r.length < 5)))
      = deduplicate_track_list tracks := by
    unfold deduplicate_track_list
    rw [← dedup_go_filter]
  refine ⟨?_, by rw [hfil]; exact h⟩
  unfold deduplicate_track_list at h
  cases hd : dedup_go tracks [] with
  | none =>
    rw [hd] at h
    exact absurd h (by simp)
  | some dict =>
    rw [hd] at h
    simp only [Option.some.injEq] at h
    have hperm : out.Perm (dict.map Prod.snd) := by
      rw [← h]
      exact List.perm_insertionSort _ _
    have hinv := dedup_go_inv tracks [] dict hd ⟨by simp, by simp⟩
    constructor
    · have h1 : (dict.map Prod.snd).map tr_title = dict.map Prod.fst := by
        rw [List.map_map]
        refine List.map_congr_left ?_
        intro p hp
        exact (hinv.2 p hp).1
      have h2 : ((dict.map Prod.snd).map tr_title).Nodup := by
        rw [h1]
        exact hinv.1
      exact ((hperm.map tr_title).nodup_iff).mpr h2
    · intro r0 hr0 h50
      have hlk : dict_lookup (tr_title r0) dict = best_for (tr_title r0) tracks := by
        have := dedup_go_lookup tracks [] dict hd (tr_title r0)
        simpa [best_for, dict_lookup] using this
      have hsome : (best_for (tr_title r0) tracks).isSome := by
        unfold best_for
        exact foldl_best_present (tr_title r0) tracks none r0 hr0 h50 rfl
      obtain ⟨u, hu⟩ := Option.isSome_iff_exists.mp hsome
      rcases best_for_spec (tr_title r0) tracks u hu with
        ⟨pre, post, hsplit, h5u, htu, hmax, hpre⟩
      have humem : u ∈ out := by
        have hm1 : (tr_title r0, u) ∈ dict := dict_lookup_mem (hlk.trans hu)
        have hm2 : u ∈ dict.map Prod.snd := List.mem_map_of_mem Prod.snd hm1
        exact (hperm.mem_iff).mpr hm2
      exact ⟨u, pre, post, humem, htu, h5u, hsplit, hmax, hpre⟩

theorem dedup_correct_c3_witness :
    DedupSpec
      [["i1", "Song A", "2024-05-01", "h", "n"],
       ["i2", "Song A", "2024-06-01", "h", "n"],
       ["bad"]]
      [["i2", "Song A", "2024-06-01", "h", "n"]]
    ∧ deduplicate_track_list
        (([["i1", "Song A", "2024-05-01", "h", "n"],
           ["i2", "Song A", "2024-06-01", "h", "n"],
           ["bad"]]).filter (fun r => decide (¬ r.length < 5)))
        = some [["i2", "Song A", "2024-06-01", "h", "n"]] :=
  dedup_correct_c3
    [["i1", "Song A", "2024-05-01", "h", "n"],
     ["i2", "Song A", "2024-06-01", "h", "n"],
     ["bad"]]
    [["i2", "Song A", "2024-06-01", "h", "n"]]
    (by decide)

theorem chunk_fuel_flatten {α : Type} (ps : Nat) (hps : 0 < ps) :
    ∀ (fuel : Nat) (l : List α), l.length ≤ fuel → (chunk_fuel ps fuel l).flatten = l := by
  intro fuel
  induction fuel with
  | zero =>
    intro l hl
    cases l with
    | nil => rfl
    | cons x xs => simp at hl
  | succ n ih =>
    intro l hl
    cases l with
    | nil => rfl
    | cons x xs =>
      simp only [chunk_fuel, List.flatten_cons]
      rw [ih ((x :: xs).drop ps)
        (by simp only [List.length_drop, List.length_cons] at hl ⊢; omega)]
      exact List.take_append_drop ps (x :: xs)

theorem chunk_list_flatten {α : Type} (ps : Nat) (hps : 0 < ps) (l : List α) :
    (chunk_list ps l).flatten = l :=
  chunk_fuel_flatten ps hps l.length l (le_refl _)

theorem chunk_fuel_length_le {α : Type} (ps : Nat) :
    ∀ (fuel : Nat) (l : List α) (c : List α), c ∈ chunk_fuel ps fuel l → c.length ≤ ps := by
  intro fuel
  induction fuel with
  | zero =>
    intro l c hc
    cases l with
    | nil => simp [chunk_fuel] at hc
    | cons x xs => simp [chunk_fuel] at hc
  | succ n ih =>
    intro l c hc
    cases l with
    | nil => simp [chunk_fuel] at hc
    | cons x xs =>
      simp only [chunk_fuel, List.mem_cons] at hc
      rcases hc with hc | hc
      · rw [hc]
        simp [List.length_take]
      · exact ih _ c hc

theorem chunk_list_length_le {α : Type} (ps : Nat) (l : List α) (c : List α)
    (hc : c ∈ chunk_list ps l) : c.length ≤ ps :=
  chunk_fuel_length_le ps l.length l c hc

theorem playlist_add_playlists (st : SpotifyState) (pid : String) (ids : List String)
    (p : String) :
    (playlist_add st pid ids 0).playlists p
      = if p = pid then ids ++ st.playlists p else st.playlists p := by
  unfold playlist_add
  dsimp only
  split_ifs <;> simp

theorem playlist_remove_playlists (st : SpotifyState) (pid : String) (ids : List String)
    (p : String) :
    (playlist_remove st pid ids).playlists p
      = if p = pid then (st.playlists p).filter (fun i => decide (i ∉ ids))
        else st.playlists p := rfl

theorem add_chunks_fst_playlists (pid : String) :
    ∀ (cs : List (List String)) (st : SpotifyState) (p : String),
    (add_chunks pid st cs).1.playlists p
      = if p = pid then cs.reverse.flatten ++ st.playlists p else st.playlists p := by
  intro cs
  induction cs with
  | nil =>
    intro st p
    simp [add_chunks]
  | cons c rest ih =>
    intro st p
    simp only [add_chunks]
    rw [ih]
    by_cases hp : p = pid
    · simp [hp, playlist_add_playlists]
    · simp [hp, playlist_add_playlists]

theorem add_chunks_fst_page_size (pid : String) :
    ∀ (cs : List (List String)) (st : SpotifyState),
    (add_chunks pid st cs).1.page_size = st.page_size := by
  intro cs
  induction cs with
  | nil => intro st; rfl
  | cons c rest ih => intro st; exact ih _

theorem add_chunks_snd (pid : String) :
    ∀ (cs : List (List String)) (st : SpotifyState),
    (add_chunks pid st cs).2 = cs.map (fun c => ApiCall.add pid c 0) := by
  intro cs
  induction cs with
  | nil => intro st; rfl
  | cons c rest ih =>
    intro st
    simp only [add_chunks, List.map_cons]
    rw [ih]

theorem get_playlist_tracks_falsy (st : SpotifyState) (playlist_id : Option String)
    (h : falsy playlist_id = true) :
    get_playlist_tracks st playlist_id = (.error (), []) := by
  unfold get_playlist_tracks
  rw [if_pos h]

theorem get_playlist_tracks_ok (st : SpotifyState) (playlist_id : Option String)
    (h : falsy playlist_id = false) :
    (get_playlist_tracks st playlist_id).1
      = .ok (st.playlists (playlist_id.getD "")) := by
  unfold get_playlist_tracks
  rw [if_neg (by simp [h])]
  dsimp only
  rw [chunk_list_flatten st.page_size st.page_size_pos]

/-- C10: `get_playlist_tracks` raises `ValueError` for every `None` or
empty-string playlist id before issuing any provider call (empty trace), and
for every non-empty id it does not raise: it returns the playlist's full
contents. -/
theorem playlist_id_validation_c10 (st : SpotifyState) (playlist_id : Option String) :
    (falsy playlist_id = true →
      get_playlist_tracks st playlist_id = (.error (), []))
    ∧ (falsy playlist_id = false →
      (get_playlist_tracks st playlist_id).1
        = .ok (st.playlists (playlist_id.getD ""))) :=
  ⟨get_playlist_tracks_falsy st playlist_id, get_playlist_tracks_ok st playlist_id⟩

theorem playlist_id_validation_c10_witness :
    get_playlist_tracks ⟨fun p => if p = "p" then ["a", "b", "c"] else [], 2, by omega⟩ none
      = (.error (), [])
    ∧ (get_playlist_tracks ⟨fun p => if p = "p" then ["a", "b", "c"] else [], 2, by omega⟩
        (some "p")).1
      = .ok ((fun p => if p = "p" then ["a", "b", "c"] else []) "p") :=
  ⟨(playlist_id_validation_c10 _ none).1 rfl,
   (playlist_id_validation_c10 _ (some "p")).2 rfl⟩

theorem update_playlists_falsy_all (st : SpotifyState) (config : Config)
    (rr all : List TrackRecord) (h : falsy config.all_playlist_id = true) :
    update_playlists st config rr all = .error () := by
  unfold update_playlists
  rw [get_playlist_tracks_falsy st config.all_playlist_id h]

theorem update_playlists_dry (st : SpotifyState) (config : Config)
    (rr all : List TrackRecord)
    (hdry : config.dry_run = true) (hall : falsy config.all_playlist_id = false) :
    update_playlists st config rr all
      = .ok (st, [],
          new_tracks rr ((st.playlists (config.rr_playlist_id.getD "")).take st.page_size),
          new_tracks all (st.playlists (config.all_playlist_id.getD ""))) := by
  unfold update_playlists
  rw [get_playlist_tracks_ok st config.all_playlist_id hall]
  dsimp only
  rw [if_pos hdry]

theorem update_playlists_run (st : SpotifyState) (config : Config)
    (rr all : List TrackRecord)
    (hdry : config.dry_run = false) (hall : falsy config.all_playlist_id = false) :
    update_playlists st config rr all
      = (let rrs := config.rr_playlist_id.getD ""
         let alls := config.all_playlist_id.getD ""
         let existing_rr := (st.playlists rrs).take st.page_size
         let new_rr := new_tracks rr existing_rr
         let new_all := new_tracks all (st.playlists alls)
         let old_rr := old_track_ids existing_rr rr
         let step1 := if old_rr.isEmpty then (st, ([] : List ApiCall))
           else (playlist_remove st rrs old_rr, [.remove rrs old_rr])
         let step2 := if new_rr.isEmpty then (step1.1, ([] : List ApiCall))
           else (playlist_add step1.1 rrs (new_rr.map TrackRecord.track_id) 0,
                 [.add rrs (new_rr.map TrackRecord.track_id) 0])
         let step3 := if new_all.isEmpty then (step2.1, ([] : List ApiCall))
           else add_chunks alls step2.1 (chunk_list 50 (new_all.map TrackRecord.track_id))
         .ok (step3.1, step1.2 ++ step2.2 ++ step3.2, new_rr, new_all)) := by
  unfold update_playlists
  rw [get_playlist_tracks_ok st config.all_playlist_id hall]
  dsimp only
  rw [if_neg (by simp [hdry])]

/-- C7 amended: in a dry-run configuration (with a usable all-playlist id) the
synchronizer issues no mutating provider calls and leaves the provider state
unchanged, and it computes and returns the two `toAdd` lists (desired tracks
absent from the respective fetched memberships). It does not compute or
return a `toRemove` list: the Python function returns before
`old_rr_track_ids` is computed, and returns no removal list in any mode. -/
theorem dry_run_amended_c7 (st : SpotifyState) (config : Config)
    (rr_playlist_tracks all_playlist_tracks : List TrackRecord)
    (hdry : config.dry_run = true) (hall : falsy config.all_playlist_id = false) :
    update_playlists st config rr_playlist_tracks all_playlist_tracks
      = .ok (st, [],
          new_tracks rr_playlist_tracks
            ((st.playlists (config.rr_playlist_id.getD "")).take st.page_size),
          new_tracks all_playlist_tracks
            (st.playlists (config.all_playlist_id.getD ""))) :=
  update_playlists_dry st config rr_playlist_tracks all_playlist_tracks hdry hall

theorem dry_run_amended_c7_witness :
    update_playlists ⟨fun p => if p = "rr" then ["t1"] else [], 2, by omega⟩
        ⟨some "rr", some "all", true⟩ [] []
      = .ok (⟨fun p => if p = "rr" then ["t1"] else [], 2, by omega⟩, [], [], []) :=
  dry_run_amended_c7 ⟨fun p => if p = "rr" then ["t1"] else [], 2, by omega⟩
    ⟨some "rr", some "all", true⟩ [] [] rfl rfl

/-- C7 counterexample: a dry run over a recent playlist holding the aged-out
track `t1` (absent from the desired list, so the `toRemove` the claim promises
is `["t1"]`) returns only the pair of (here empty) `toAdd` lists; no component
of the result carries `t1`, so `toRemove` is neither computed nor returned in
dry-run. -/
theorem dry_run_counterexample_c7 :
    update_playlists ⟨fun p => if p = "rr" then ["t1"] else [], 2, by omega⟩
        ⟨some "rr", some "all", true⟩ [] []
      = .ok (⟨fun p => if p = "rr" then ["t1"] else [], 2, by omega⟩, [], [], [])
    ∧ old_track_ids ["t1"] [] = ["t1"] :=
  ⟨rfl, rfl⟩

/-- C2 amended: before the diff, the all-tracks playlist membership is
exhaustively paged (its diff is computed against the playlist's complete
contents), but the recent-releases playlist diff is computed against only the
FIRST page of the provider response, not the full membership. -/
theorem membership_paging_amended_c2 (st : SpotifyState) (config : Config)
    (rr_playlist_tracks all_playlist_tracks : List TrackRecord)
    (st1 : SpotifyState) (trace : List ApiCall) (nrr nall : List TrackRecord)
    (h : update_playlists st config rr_playlist_tracks all_playlist_tracks
      = .ok (st1, trace, nrr, nall)) :
    nall = new_tracks all_playlist_tracks
        (st.playlists (config.all_playlist_id.getD ""))
    ∧ nrr = new_tracks rr_playlist_tracks
        ((st.playlists (config.rr_playlist_id.getD "")).take st.page_size) := by
  have hall : falsy config.all_playlist_id = false := by
    cases hf : falsy config.all_playlist_id
    · rfl
    · rw [update_playlists_falsy_all st config _ _ hf] at h
      exact absurd h (by simp)
  by_cases hdry : config.dry_run = true
  · rw [update_playlists_dry st config _ _ hdry hall] at h
    simp only [Except.ok.injEq, Prod.mk.injEq] at h
    exact ⟨h.2.2.2.symm, h.2.2.1.symm⟩
  · rw [update_playlists_run st config _ _ (by simpa using hdry) hall] at h
    simp only [Except.ok.injEq, Prod.mk.injEq] at h
    exact ⟨h.2.2.2.symm, h.2.2.1.symm⟩

theorem membership_paging_amended_c2_witness :
    ([⟨"y", "BN", "2024-02-02", none, none⟩] : List TrackRecord)
      = new_tracks [⟨"x", "AN", "2024-02-01", none, none⟩,
                    ⟨"y", "BN", "2024-02-02", none, none⟩] ["x"]
    ∧ ([⟨"t3", "CN", "2024-03-01", none, none⟩] : List TrackRecord)
      = new_tracks [⟨"t3", "CN", "2024-03-01", none, none⟩] ["t1", "t2"] :=
  membership_paging_amended_c2
    ⟨fun p => if p = "rr" then ["t1", "t2", "t3"] else ["x"], 2, by omega⟩
    ⟨some "rr", some "all", true⟩
    [⟨"t3", "CN", "2024-03-01", none, none⟩]
    [⟨"x", "AN", "2024-02-01", none, none⟩, ⟨"y", "BN", "2024-02-02", none, none⟩]
    ⟨fun p => if p = "rr" then ["t1", "t2", "t3"] else ["x"], 2, by omega⟩
    [] [⟨"t3", "CN", "2024-03-01", none, none⟩] [⟨"y", "BN", "2024-02-02", none, none⟩]
    rfl

/-- C2 counterexample: the recent playlist holds `t1, t2, t3` with page size
2, so its first page is `[t1, t2]`. The desired recent track `t3` is already
in the playlist, yet the computed recent-releases `toAdd` contains it, because
the diff used only the first page; the claimed exhaustive paging would give an
empty `toAdd`. -/
theorem membership_paging_counterexample_c2 :
    "t3" ∈ (fun p => if p = "rr" then ["t1", "t2", "t3"] else []) "rr"
    ∧ update_playlists ⟨fun p => if p = "rr" then ["t1", "t2", "t3"] else [], 2, by omega⟩
        ⟨some "rr", some "all", true⟩ [⟨"t3", "CN", "2024-03-01", none, none⟩] []
      = .ok (⟨fun p => if p = "rr" then ["t1", "t2", "t3"] else [], 2, by omega⟩, [],
             [⟨"t3", "CN", "2024-03-01", none, none⟩], []) := by
  constructor
  · simp
  · rfl

theorem filterMap_add_chunks (alls : String) (cs : List (List String)) :
    (cs.map (fun c => ApiCall.add alls c 0)).filterMap (fun c => match c with
      | ApiCall.add p ids pos => if p = alls ∧ pos = 0 then some ids else none
      | _ => none) = cs := by
  induction cs with
  | nil => rfl
  | cons c rest ih =>
    simp only [List.map_cons, List.filterMap_cons, ih]
    simp

/-- C1 amended: the batch-size guarantee holds for the all-tracks playlist
only. On every non-dry run with distinct target playlists, the addition calls
issued to the all-tracks playlist are exactly the consecutive 50-chunks of
the new all-track ids, in order, each inserted at position 0, each carrying
at most 50 ids, and concatenating back to the full new-ids list; the net
effect on the all playlist is repeated head-insertion of the chunks in chunk
order (the last chunk ends up closest to the head). The recent-releases
addition, by contrast, is issued as a single call carrying all new recent
ids, which may exceed 50 (see the counterexample). -/
theorem batch_size_amended_c1 (st : SpotifyState) (config : Config)
    (rr_playlist_tracks all_playlist_tracks : List TrackRecord)
    (st1 : SpotifyState) (trace : List ApiCall) (nrr nall : List TrackRecord)
    (hdry : config.dry_run = false)
    (hne : config.rr_playlist_id.getD "" ≠ config.all_playlist_id.getD "")
    (h : update_playlists st config rr_playlist_tracks all_playlist_tracks
      = .ok (st1, trace, nrr, nall)) :
    trace.filterMap (fun c => match c with
        | ApiCall.add p ids pos =>
          if p = config.all_playlist_id.getD "" ∧ pos = 0 then some ids else none
        | _ => none)
      = chunk_list 50 (nall.map TrackRecord.track_id)
    ∧ (∀ c ∈ chunk_list 50 (nall.map TrackRecord.track_id), c.length ≤ 50)
    ∧ (chunk_list 50 (nall.map TrackRecord.track_id)).flatten
        = nall.map TrackRecord.track_id
    ∧ st1.playlists (config.all_playlist_id.getD "")
        = (chunk_list 50 (nall.map TrackRecord.track_id)).reverse.flatten
            ++ st.playlists (config.all_playlist_id.getD "") := by
  have hall : falsy config.all_playlist_id = false := by
    cases hf : falsy config.all_playlist_id
    · rfl
    · rw [update_playlists_falsy_all st config _ _ hf] at h
      exact absurd h (by simp)
  rw [update_playlists_run st config _ _ hdry hall] at h
  simp only [Except.ok.injEq, Prod.mk.injEq] at h
  set rrs := config.rr_playlist_id.getD "" with hrrs
  set alls := config.all_playlist_id.getD "" with halls
  set ex := (st.playlists rrs).take st.page_size with hex
  set NR := new_tracks rr_playlist_tracks ex with hNRdef
  set NA := new_tracks all_playlist_tracks (st.playlists alls) with hNAdef
  set OLD := old_track_ids ex rr_playlist_tracks with hOLDdef
  obtain ⟨hst, htr, hnr, hna⟩ := h
  have halne : ¬ (alls = rrs) := fun hc => hne hc.symm
  have t1 : (if OLD.isEmpty = true then (st, ([] : List ApiCall))
        else (playlist_remove st rrs OLD, [.remove rrs OLD])).2.filterMap
        (fun c => match c with
          | ApiCall.add p ids pos => if p = alls ∧ pos = 0 then some ids else none
          | _ => none) = [] := by
    rw [apply_ite Prod.snd, apply_ite (List.filterMap _)]
    simp
  have hs1all : ∀ (x y : SpotifyState) (c : Prop) [Decidable c],
      x.playlists alls = st.playlists alls → y.playlists alls = st.playlists alls →
      (if c then x else y).playlists alls = st.playlists alls := by
    intro x y c hc hx hy
    rw [apply_ite (fun s => SpotifyState.playlists s alls), hx, hy, ite_self]
  have p1 : (if OLD.isEmpty = true then (st, ([] : List ApiCall))
      else (playlist_remove st rrs OLD, [.remove rrs OLD])).1.playlists alls
      = st.playlists alls := by
    rw [apply_ite Prod.fst]
    exact hs1all _ _ _ rfl (by rw [playlist_remove_playlists, if_neg halne])
  subst hna
  subst htr
  subst hst
  refine ⟨?_, fun c hc => chunk_list_length_le 50 _ c hc,
    chunk_list_flatten 50 (by omega) _, ?_⟩
  · rw [List.filterMap_append, List.filterMap_append, t1]
    have t2 : (if NR.isEmpty = true then
          ((if OLD.isEmpty = true then (st, ([] : List ApiCall))
            else (playlist_remove st rrs OLD, [.remove rrs OLD])).1, ([] : List ApiCall))
        else (playlist_add (if OLD.isEmpty = true then (st, ([] : List ApiCall))
            else (playlist_remove st rrs OLD, [.remove rrs OLD])).1 rrs
            (NR.map TrackRecord.track_id) 0,
          [.add rrs (NR.map TrackRecord.track_id) 0])).2.filterMap
        (fun c => match c with
          | ApiCall.add p ids pos => if p = alls ∧ pos = 0 then some ids else none
          | _ => none) = [] := by
      rw [apply_ite Prod.snd, apply_ite (List.filterMap _)]
      simp [hne]
    rw [t2]
    simp only [List.nil_append]
    rw [apply_ite Prod.snd, apply_ite (List.filterMap _), add_chunks_snd,
      filterMap_add_chunks]
    by_cases hA : NA.isEmpty = true
    · rw [if_pos hA, List.isEmpty_iff.mp hA, List.map_nil]
      rfl
    · rw [if_neg hA]
  · have p2 : (if NR.isEmpty = true then
          ((if OLD.isEmpty = true then (st, ([] : List ApiCall))
            else (playlist_remove st rrs OLD, [.remove rrs OLD])).1, ([] : List ApiCall))
        else (playlist_add (if OLD.isEmpty = true then (st, ([] : List ApiCall))
            else (playlist_remove st rrs OLD, [.remove rrs OLD])).1 rrs
            (NR.map TrackRecord.track_id) 0,
          [.add rrs (NR.map TrackRecord.track_id) 0])).1.playlists alls
        = st.playlists alls := by
      rw [apply_ite Prod.fst]
      refine hs1all _ _ _ p1 ?_
      rw [playlist_add_playlists, if_neg halne]
      exact p1
    rw [apply_ite Prod.fst, apply_ite (fun s => SpotifyState.playlists s alls)]
    rw [add_chunks_fst_playlists, if_pos rfl, p2]
    by_cases hA : NA.isEmpty = true
    · rw [if_pos hA, List.isEmpty_iff.mp hA, List.map_nil]
      rfl
    · rw [if_neg hA]

/-- C1 counterexample: with 51 new recent tracks and an empty recent playlist,
the run issues a single recent-releases addition call carrying 51 track ids —
more than 50 — because only the all-tracks upload is chunked; the claim's
split-into-chunks behavior does not apply to this addition call. -/
theorem batch_size_counterexample_c1 :
    (update_playlists ⟨fun _ => [], 2, by omega⟩ ⟨some "rr", some "all", false⟩
        (List.replicate 51 ⟨"t", "N", "2024-01-01", none, none⟩) []).toOption.map
      (fun r => r.2.1)
      = some [ApiCall.add "rr" (List.replicate 51 "t") 0]
    ∧ (List.replicate 51 "t").length = 51 := by
  constructor
  · rfl
  · rfl

theorem batch_size_amended_c1_witness :
    ([ApiCall.add "all" ["a1"] 0] : List ApiCall).filterMap (fun c => match c with
        | ApiCall.add p ids pos => if p = "all" ∧ pos = 0 then some ids else none
        | _ => none)
      = chunk_list 50 ["a1"]
    ∧ (∀ c ∈ chunk_list 50 ["a1"], c.length ≤ 50)
    ∧ (chunk_list 50 ["a1"]).flatten = ["a1"]
    ∧ (⟨fun p => if p = "all" then ["a1"] else [], 2, by omega⟩ : SpotifyState).playlists "all"
        = (chunk_list 50 ["a1"]).reverse.flatten ++ [] :=
  batch_size_amended_c1 ⟨fun _ => [], 2, by omega⟩ ⟨some "rr", some "all", false⟩ []
    [⟨"a1", "N", "2024-01-01", none, none⟩]
    ⟨fun p => if p = "all" then ["a1"] else [], 2, by omega⟩
    [ApiCall.add "all" ["a1"] 0] [] [⟨"a1", "N", "2024-01-01", none, none⟩]
    rfl (by decide) rfl

/-- C8 amended: the second run is a no-op provided the recent playlist reads
are complete — the recent playlist's contents fit within one provider page
both before and after the first run — and the two target playlists are
distinct. Then running `update_playlists` again with the same desired lists
against the state produced by the first run issues no mutating calls, leaves
the state unchanged, and returns empty `toAdd` lists (and computes an empty
removal list). Without the one-page condition idempotence fails (see the
counterexample): the first page-limited read leaves tracks unseen. -/
theorem idempotence_amended_c8 (st : SpotifyState) (config : Config)
    (rr_playlist_tracks all_playlist_tracks : List TrackRecord)
    (st1 : SpotifyState) (trace : List ApiCall) (nrr nall : List TrackRecord)
    (hdry : config.dry_run = false)
    (hne : config.rr_playlist_id.getD "" ≠ config.all_playlist_id.getD "")
    (h : update_playlists st config rr_playlist_tracks all_playlist_tracks
      = .ok (st1, trace, nrr, nall))
    (h2 : (st.playlists (config.rr_playlist_id.getD "")).length ≤ st.page_size)
    (h3 : (st1.playlists (config.rr_playlist_id.getD "")).length ≤ st1.page_size) :
    update_playlists st1 config rr_playlist_tracks all_playlist_tracks
      = .ok (st1, [], [], []) := by
  have hall : falsy config.all_playlist_id = false := by
    cases hf : falsy config.all_playlist_id
    · rfl
    · rw [update_playlists_falsy_all st config _ _ hf] at h
      exact absurd h (by simp)
  rw [update_playlists_run st config _ _ hdry hall] at h
  simp only [Except.ok.injEq, Prod.mk.injEq] at h
  set rrs := config.rr_playlist_id.getD "" with hrrs
  set alls := config.all_playlist_id.getD "" with halls
  set ex := (st.playlists rrs).take st.page_size with hex
  set NR := new_tracks rr_playlist_tracks ex with hNRdef
  set NA := new_tracks all_playlist_tracks (st.playlists alls) with hNAdef
  set OLD := old_track_ids ex rr_playlist_tracks with hOLDdef
  obtain ⟨hst, htr, hnr, hna⟩ := h
  have halne : ¬ (alls = rrs) := fun hc => hne hc.symm
  have hexfull : ex = st.playlists rrs := by
    rw [hex]
    exact List.take_of_length_le h2
  have hS1mem : ∀ x, x ∈ (if OLD.isEmpty = true then (st, ([] : List ApiCall))
      else (playlist_remove st rrs OLD, [ApiCall.remove rrs OLD])).1.playlists rrs
      ↔ x ∈ st.playlists rrs ∧ x ∉ OLD := by
    intro x
    rw [apply_ite Prod.fst, apply_ite (fun s => SpotifyState.playlists s rrs)]
    by_cases hO : OLD.isEmpty = true
    · rw [if_pos hO]
      simp [List.isEmpty_iff.mp hO]
    · rw [if_neg hO, playlist_remove_playlists, if_pos rfl]
      simp [List.mem_filter]
  have hS1alls : (if OLD.isEmpty = true then (st, ([] : List ApiCall))
      else (playlist_remove st rrs OLD, [ApiCall.remove rrs OLD])).1.playlists alls
      = st.playlists alls := by
    rw [apply_ite Prod.fst, apply_ite (fun s => SpotifyState.playlists s alls),
      playlist_remove_playlists, if_neg halne, ite_self]
  have hS2mem : ∀ x, x ∈ (if NR.isEmpty = true then
        ((if OLD.isEmpty = true then (st, ([] : List ApiCall))
          else (playlist_remove st rrs OLD, [ApiCall.remove rrs OLD])).1,
          ([] : List ApiCall))
      else (playlist_add (if OLD.isEmpty = true then (st, ([] : List ApiCall))
          else (playlist_remove st rrs OLD, [ApiCall.remove rrs OLD])).1 rrs
          (NR.map TrackRecord.track_id) 0,
        [ApiCall.add rrs (NR.map TrackRecord.track_id) 0])).1.playlists rrs
      ↔ x ∈ NR.map TrackRecord.track_id ∨ (x ∈ st.playlists rrs ∧ x ∉ OLD) := by
    intro x
    rw [apply_ite Prod.fst, apply_ite (fun s => SpotifyState.playlists s rrs)]
    by_cases hN : NR.isEmpty = true
    · rw [if_pos hN]
      rw [hS1mem x]
      simp [List.isEmpty_iff.mp hN]
    · rw [if_neg hN, playlist_add_playlists, if_pos rfl]
      rw [List.mem_append, hS1mem x]
  have hS2alls : (if NR.isEmpty = true then
        ((if OLD.isEmpty = true then (st, ([] : List ApiCall))
          else (playlist_remove st rrs OLD, [ApiCall.remove rrs OLD])).1,
          ([] : List ApiCall))
      else (playlist_add (if OLD.isEmpty = true then (st, ([] : List ApiCall))
          else (playlist_remove st rrs OLD, [ApiCall.remove rrs OLD])).1 rrs
          (NR.map TrackRecord.track_id) 0,
        [ApiCall.add rrs (NR.map TrackRecord.track_id) 0])).1.playlists alls
      = st.playlists alls := by
    rw [apply_ite Prod.fst, apply_ite (fun s => SpotifyState.playlists s alls),
      playlist_add_playlists, if_neg halne, hS1alls, ite_self]
  have hrrmem : ∀ x, x ∈ st1.playlists rrs
      ↔ x ∈ NR.map TrackRecord.track_id ∨ (x ∈ st.playlists rrs ∧ x ∉ OLD) := by
    intro x
    rw [← hst, apply_ite Prod.fst, apply_ite (fun s => SpotifyState.playlists s rrs),
      add_chunks_fst_playlists, if_neg hne, ite_self]
    exact hS2mem x
  have hallsmem : ∀ x, x ∈ st1.playlists alls
      ↔ x ∈ NA.map TrackRecord.track_id ∨ x ∈ st.playlists alls := by
    intro x
    rw [← hst, apply_ite Prod.fst, apply_ite (fun s => SpotifyState.playlists s alls)]
    by_cases hA : NA.isEmpty = true
    · rw [if_pos hA]
      rw [hS2alls]
      simp [List.isEmpty_iff.mp hA]
    · rw [if_neg hA, add_chunks_fst_playlists, if_pos rfl, hS2alls]
      rw [List.mem_append]
      have hflat : ∀ y, y ∈ (chunk_list 50 (NA.map TrackRecord.track_id)).reverse.flatten
          ↔ y ∈ NA.map TrackRecord.track_id := by
        intro y
        have h1 : y ∈ (chunk_list 50 (NA.map TrackRecord.track_id)).reverse.flatten
            ↔ y ∈ (chunk_list 50 (NA.map TrackRecord.track_id)).flatten := by
          simp [List.mem_flatten]
        rw [h1, chunk_list_flatten 50 (by omega)]
      rw [hflat x]
  have hNRsub : ∀ x, x ∈ NR.map TrackRecord.track_id →
      x ∈ rr_playlist_tracks.map TrackRecord.track_id := by
    intro x hx
    rcases List.mem_map.mp hx with ⟨t, ht, rfl⟩
    rw [hNRdef, new_tracks] at ht
    exact List.mem_map_of_mem _ (List.mem_filter.mp ht).1
  have ha : new_tracks rr_playlist_tracks (st1.playlists rrs) = [] := by
    rw [new_tracks, List.filter_eq_nil_iff]
    intro t ht
    simp only [decide_eq_true_eq, not_not]
    refine (hrrmem t.track_id).mpr ?_
    by_cases hm : t.track_id ∈ ex
    · right
      refine ⟨hexfull ▸ hm, fun hxOLD => ?_⟩
      rw [hOLDdef, old_track_ids] at hxOLD
      have hh := (List.mem_filter.mp hxOLD).2
      simp only [decide_eq_true_eq] at hh
      exact hh (List.mem_map_of_mem _ ht)
    · left
      refine List.mem_map_of_mem _ ?_
      rw [hNRdef, new_tracks]
      exact List.mem_filter.mpr ⟨ht, by simpa using hm⟩
  have hb : old_track_ids (st1.playlists rrs) rr_playlist_tracks = [] := by
    rw [old_track_ids, List.filter_eq_nil_iff]
    intro x hx
    simp only [decide_eq_true_eq, not_not]
    rcases (hrrmem x).mp hx with hL | ⟨hin, hnold⟩
    · exact hNRsub x hL
    · by_contra hnot
      refine hnold ?_
      rw [hOLDdef, old_track_ids]
      exact List.mem_filter.mpr ⟨hexfull ▸ hin, by simpa using hnot⟩
  have hc : new_tracks all_playlist_tracks (st1.playlists alls) = [] := by
    rw [new_tracks, List.filter_eq_nil_iff]
    intro t ht
    simp only [decide_eq_true_eq, not_not]
    refine (hallsmem t.track_id).mpr ?_
    by_cases hm : t.track_id ∈ st.playlists alls
    · exact Or.inr hm
    · left
      refine List.mem_map_of_mem _ ?_
      rw [hNAdef, new_tracks]
      exact List.mem_filter.mpr ⟨ht, by simpa using hm⟩
  rw [update_playlists_run st1 config _ _ hdry hall]
  dsimp only
  rw [← hrrs, ← halls]
  rw [List.take_of_length_le h3, ha, hb, hc]
  simp

/-- C8 counterexample: recent playlist `[t1, t2, t3]` with page size 2, desired
recent list `[t4]`. The first run reads only the first page `[t1, t2]`,
removes those two, and head-inserts `t4`, leaving `[t4, t3]` — `t3` was never
seen. The second run, reading the state the first run produced, computes the
non-empty removal list `[t3]` and issues a removal call, so the second run's
`toRemove` is not empty and the update is not idempotent as claimed. -/
theorem idempotence_counterexample_c8 :
    ((update_playlists ⟨fun p => if p = "rr" then ["t1", "t2", "t3"] else [], 2, by omega⟩
        ⟨some "rr", some "all", false⟩ [⟨"t4", "N", "2024-01-01", none, none⟩] []).toOption.bind
      (fun r1 => (update_playlists r1.1 ⟨some "rr", some "all", false⟩
          [⟨"t4", "N", "2024-01-01", none, none⟩] []).toOption.map
        (fun r2 => r2.2.1)))
      = some [ApiCall.remove "rr" ["t3"]] := by
  rfl

theorem idempotence_amended_c8_witness :
    update_playlists ⟨fun p => if p = "rr" then ["a"] else [], 2, by omega⟩
        ⟨some "rr", some "all", false⟩ [⟨"a", "N", "2024-01-01", none, none⟩] []
      = .ok (⟨fun p => if p = "rr" then ["a"] else [], 2, by omega⟩, [], [], []) :=
  idempotence_amended_c8 ⟨fun p => if p = "rr" then ["a"] else [], 2, by omega⟩
    ⟨some "rr", some "all", false⟩ [⟨"a", "N", "2024-01-01", none, none⟩] []
    ⟨fun p => if p = "rr" then ["a"] else [], 2, by omega⟩ [] [] []
    rfl (by decide) rfl (by simp) (by simp)
